/-
Verification of the Graham Braille Writer local print bridge.

This file gives a shallow embedding, in Lean 4, of the bridge's job-event
bus (`bridge/debug.go`: `appendJob`, `subscribe`, `unsubscribe`,
`handleLogStream`), its HTTP handlers (`handleTestPrint`, `handlePrinters`),
the `hexDump` helper, and the Unix print backend (`sendToPrinter`,
`listPrinters` from `print_unix.go`), together with theorems settling the
specification's claims about them.

Concurrency is modelled by an explicit interleaving semantics: `appendJob`
is split into its two critical sections (ring append under the history lock,
broadcast under the subscriber lock), and a `/log-stream` handler into its
snapshot, registration, and receive steps, exactly mirroring the lock
structure of the Go code.  OS interaction (temp files, the `lp` command,
`lpstat`) is represented by explicit oracle records carrying the results the
operating system returns.
-/
import Mathlib

namespace BrailleBridge

/-! Section: job event data model (`bridge/debug.go`, type `JobEvent`)

The Go struct carries `ID, Time, Printer, Bytes, BRFText, HexDump, ErrMsg`.
`ID` is assigned by `appendJob`; all other fields are set by the handler
before the event is recorded.  We separate the handler-set payload
(`JobData`, with the wall-clock time as an abstract `Nat`) from the recorded
event (`JobEvent = id + payload`). -/

structure JobData where
  time : Nat
  printer : String
  bytes : Nat
  brfText : String
  hexOut : String
  errMsg : String
deriving DecidableEq, Repr

structure JobEvent where
  id : Nat
  data : JobData
deriving DecidableEq, Repr

/-! Section: hexDump (`bridge/debug.go` lines 80-117)

A direct port: bytes are `Nat`s below 256; `fmt.Sprintf "%04x  "` and
`"%02x "` become explicit hex-digit rendering; the Go loop over 16-byte
rows becomes structural recursion on 16-byte chunks. -/

def hexDigit (n : Nat) : Char :=
  if n < 10 then Char.ofNat (48 + n) else Char.ofNat (87 + n)

/-- Rendering of `fmt.Sprintf "%02x" b` for a byte value. -/
def hex2 (b : Nat) : String :=
  String.mk [hexDigit (b / 16 % 16), hexDigit (b % 16)]

/-- Rendering of `fmt.Sprintf "%04x" n` for an offset below 0x10000. -/
def hex4 (n : Nat) : String :=
  String.mk [hexDigit (n / 4096 % 16), hexDigit (n / 256 % 16),
             hexDigit (n / 16 % 16), hexDigit (n % 16)]

/-- ASCII gutter cell: printable bytes shown verbatim, the rest as a dot. -/
def asciiCell (b : Nat) : Char :=
  if 0x20 ≤ b ∧ b < 0x7f then Char.ofNat b else '.'

/-- One row of the dump: offset, hex area (with the extra space after byte 7
and the short-row padding computed exactly as in the Go code), then the
ASCII gutter. -/
def hexDumpRow (i : Nat) (row : List Nat) : String :=
  hex4 i ++ "  "
    ++ String.join (row.enum.map fun jb =>
        hex2 jb.2 ++ " " ++ (if jb.1 == 7 then " " else ""))
    ++ (if row.length < 16 then
          String.mk (List.replicate
            ((16 - row.length) * 3 + (if row.length ≤ 8 then 1 else 0)) ' ')
        else "")
    ++ " |" ++ String.mk (row.map asciiCell) ++ "|\n"

/-- Port of `hexDump`: truncate to the first 256 bytes, then render the
16-byte rows of the Go loop `for i := 0; i < len(data); i += 16`, whose
iteration `r` handles offset `i = 16 r` and row `data[i:min(i+16,len)]`. -/
def hexDump (data : List Nat) : String :=
  let d := data.take 256
  String.join ((List.range ((d.length + 15) / 16)).map
    (fun r => hexDumpRow (r * 16) ((d.drop (r * 16)).take 16)))

/-- Split a character list at every occurrence of `sep` — the behaviour of
Go `strings.Split` with a one-character separator (and of
`String.splitOn`), written structurally so it evaluates by `decide`. -/
def splitChar (sep : Char) : List Char → List (List Char)
  | [] => [[]]
  | c :: rest =>
      match splitChar sep rest with
      | [] => if c = sep then [[], [c]] else [[c]]
      | h :: t => if c = sep then [] :: h :: t else (c :: h) :: t

/-- Column (0-based character index) of the ASCII-gutter bar in each output
line.  The offset prefix and the hex area never contain a bar character, so
the first occurrence of the bar in a line is the gutter. -/
def hexDumpGutterCols (data : List Nat) : List Nat :=
  ((splitChar '\n' (hexDump data).toList).dropLast).map
    (fun l => l.indexOf '|')

/-! Section: printer enumeration (`print_unix.go`, `listPrinters`)

`listPrinters` shells out to `lpstat -a` (falling back to plain `lpstat`);
each output line's first whitespace-separated field is a printer name.  The
oracle inputs are the command results: `none` models a failed invocation,
`some out` a successful one with combined standard output `out`.  The Go
function builds its result with `append` starting from a nil slice, so the
returned slice is nil exactly when the returned list here is empty. -/

/-- Split a character list at every character satisfying `p`; keeping the
(possibly empty) segments between separators. -/
def splitPred (p : Char → Bool) : List Char → List (List Char)
  | [] => [[]]
  | c :: rest =>
      match splitPred p rest with
      | [] => if p c then [[], [c]] else [[c]]
      | h :: t => if p c then [] :: h :: t else (c :: h) :: t

/-- Port of `strings.Fields`: the maximal runs of non-whitespace characters,
i.e. the whitespace-split segments with the empties dropped. -/
def goFields (line : List Char) : List String :=
  ((splitPred (fun c => c.isWhitespace) line).filter
    (fun l => l ≠ [])).map (fun l => String.mk l)

/-- Parse `lpstat` output (split on the newline separator as
`strings.Split` does): first field of each line that has one. -/
def parseLpstat (out : String) : List String :=
  (splitChar '\n' out.toList).filterMap (fun line => (goFields line).head?)

/-- Port of `listPrinters` over the results of `lpstat -a` and the plain
`lpstat` fallback. -/
def listPrinters (lpstatA lpstatPlain : Option String) : List String :=
  match lpstatA with
  | some out => parseLpstat out
  | none =>
    match lpstatPlain with
    | some out => parseLpstat out
    | none => []

/-! Section: JSON encoding of the printer list (`handlePrinters`)

`json.NewEncoder(w).Encode(printers)` HTML-escapes string contents and
appends a trailing newline; a nil `[]string` encodes as `null`.  The Go
slice is nil exactly when the list is empty (see above). -/

/-- One character of a Go `encoding/json` string, with the default
HTML-escaping behaviour of `json.Encoder`. -/
def goJsonChar (c : Char) : String :=
  if c = '"' then "\\\""
  else if c = '\\' then "\\\\"
  else if c = '\n' then "\\n"
  else if c = '\r' then "\\r"
  else if c = '\t' then "\\t"
  else if c.toNat < 0x20 then "\\u00" ++ hex2 c.toNat
  else if c = '<' then "\\u003c"
  else if c = '>' then "\\u003e"
  else if c = '&' then "\\u0026"
  else if c.toNat = 0x2028 then "\\u2028"
  else if c.toNat = 0x2029 then "\\u2029"
  else String.mk [c]

def goJsonString (s : String) : String :=
  "\"" ++ String.join (s.toList.map goJsonChar) ++ "\""

/-- Behaviour of `json.Encoder.Encode` on the `[]string` from `listPrinters`:
`null` for the nil slice, otherwise a compact JSON array; a newline is
always appended. -/
def encodePrinters (l : List String) : String :=
  (if l.isEmpty then "null"
   else "[" ++ String.intercalate "," (l.map goJsonString) ++ "]") ++ "\n"

structure HttpResponse where
  status : Nat
  body : String
deriving DecidableEq, Repr

/-- Port of `handlePrinters` (`bridge/debug.go` lines 167-172): always 200
with the JSON encoding of `listPrinters`. -/
def handlePrinters (lpstatA lpstatPlain : Option String) : HttpResponse :=
  { status := 200, body := encodePrinters (listPrinters lpstatA lpstatPlain) }

/-! Section: Unix print backend (`print_unix.go`, `sendToPrinter`)

The OS interaction is an oracle: the temp-file name `os.CreateTemp` picks,
and the error results (with Go error strings) of each OS call.  Alongside
the `error` result we return the trace of file-system operations the call
performs, in order, and below we interpret that trace over a file-system
state to show the temp file never outlives the call. -/

structure UnixOS where
  tmpName : String
  createErr : Option String
  writeErr : Option String
  closeErr : Option String
  lpErr : Option String
  lpOutput : String
deriving DecidableEq, Repr

inductive FileOp where
  | create (name : String)
  | write (name : String) (data : List Nat)
  | close (name : String)
  | runLp (printerName : String) (name : String)
  | remove (name : String)
deriving DecidableEq, Repr

/-- Port of `sendToPrinter printerName data` under OS oracle `os`.  Error messages
are built exactly as the Go `fmt.Errorf` calls build them (`%w` inlines the
wrapped error's message).  The trace lists the OS operations attempted, in
order (a failed write or close still appears; it changes no file-system
state).  The deferred `os.Remove` runs on every exit path after a
successful create, hence ends every non-empty trace. -/
def sendToPrinter (printerName : String) (data : List Nat) (os : UnixOS) :
    Except String Unit × List FileOp :=
  match os.createErr with
  | some e => (Except.error ("create temp file: " ++ e), [])
  | none =>
    match os.writeErr with
    | some e =>
        (Except.error ("write temp file: " ++ e),
         [FileOp.create os.tmpName, FileOp.write os.tmpName data,
          FileOp.remove os.tmpName])
    | none =>
      match os.closeErr with
      | some e =>
          (Except.error ("close temp file: " ++ e),
           [FileOp.create os.tmpName, FileOp.write os.tmpName data,
            FileOp.close os.tmpName, FileOp.remove os.tmpName])
      | none =>
        match os.lpErr with
        | some e =>
            (Except.error
              ("lp command failed: " ++ e ++ "\noutput: " ++ os.lpOutput),
             [FileOp.create os.tmpName, FileOp.write os.tmpName data,
              FileOp.close os.tmpName,
              FileOp.runLp printerName os.tmpName, FileOp.remove os.tmpName])
        | none =>
            (Except.ok (),
             [FileOp.create os.tmpName, FileOp.write os.tmpName data,
              FileOp.close os.tmpName,
              FileOp.runLp printerName os.tmpName, FileOp.remove os.tmpName])

/-- Interpret the file-op trace over a file-system state (the set of
existing file names). -/
def applyFileOps (fs : List String) : List FileOp → List String
  | [] => fs
  | FileOp.create n :: rest => applyFileOps (fs ++ [n]) rest
  | FileOp.write _ _ :: rest => applyFileOps fs rest
  | FileOp.close _ :: rest => applyFileOps fs rest
  | FileOp.runLp _ _ :: rest => applyFileOps fs rest
  | FileOp.remove n :: rest => applyFileOps (fs.erase n) rest

/-! Section: HTTP print handlers (`bridge/debug.go`, `handleTestPrint`)

A handler run is a function of the request method, the JSON-decode result
of the body (`none` models a decode error), the wall-clock time and the OS
oracle.  It returns the HTTP response, the list of `appendJob` payloads the
handler records (in call order), and whether `sendToPrinter` was invoked. -/

/-- Model of Go `http.Error`: the message is written with `fmt.Fprintln`,
so the response body is the message followed by one newline. -/
def httpError (msg : String) (code : Nat) : HttpResponse :=
  { status := code, body := msg ++ "\n" }

/-- Fixed BRF test page from `handleTestPrint` (`bridge/debug.go` 193-198). -/
def testBRF : String :=
  ",GRAHAM BRIDGE TE/ PAGE\r\n\r\n" ++
  "abcdefghij\r\n" ++
  "klmnopqrst\r\n" ++
  "uvwxyz\r\n\r\n" ++
  "#a #b #c #d #e\r\n\r\n" ++
  "hello _w.\r\n"

/-- Byte view of the test page (`data := []byte(testBRF)`; pure ASCII). -/
def testBRFBytes : List Nat := testBRF.toList.map Char.toNat

structure HandlerOut where
  resp : HttpResponse
  events : List JobData
  sendCalled : Bool
deriving DecidableEq, Repr

/-- Port of `handleTestPrint` (`bridge/debug.go` lines 175-219): reject
non-POST; reject a body that fails to decode or carries an empty printer
name; otherwise send the fixed test page, record exactly one `JobEvent`
whose `errMsg` is the backend's error message (empty on success), and
answer 500 with that message or 200 with the queued status. -/
def handleTestPrint (method : String) (parsed : Option String) (now : Nat)
    (os : UnixOS) : HandlerOut :=
  if method ≠ "POST" then
    ⟨httpError "method not allowed" 405, [], false⟩
  else
    match parsed with
    | none => ⟨httpError "printer name required" 400, [], false⟩
    | some printer =>
      if printer = "" then ⟨httpError "printer name required" 400, [], false⟩
      else
        let r := (sendToPrinter printer testBRFBytes os).1
        let base : JobData :=
          { time := now, printer := printer, bytes := testBRFBytes.length,
            brfText := testBRF, hexOut := hexDump testBRFBytes, errMsg := "" }
        match r with
        | Except.error m =>
            ⟨httpError m 500, [{ base with errMsg := m }], true⟩
        | Except.ok _ =>
            ⟨{ status := 200, body := "\x7b\"status\":\"queued\"\x7d" }, [base], true⟩

/-- First 4 KB of the payload as plain text (the `BRFText` preview bound
documented on the `JobEvent` struct). -/
def textPreview (data : List Nat) : String :=
  String.mk ((data.take 4096).map Char.ofNat)

/-- Modelled from the spec: the `/print` handler lives in `bridge/main.go`,
which is not among the provided sources.  Spec section 4.1: "POST /print
{printer, data: base64} → decode, reject if printer name empty or data
undecodable, delegate to the Platform Print Backend, record one JobEvent,
return 200 on success or an error status with the backend's message";
section 6 gives the 200 response an empty body; the JobEvent previews
follow the data-model bounds (first 4 KB text, first 256 bytes hex), with
`bytes` the decoded payload length.  `parsed = none` models an unparsable
JSON body; a `none` payload models undecodable base64. -/
def handlePrint (method : String)
    (parsed : Option (String × Option (List Nat))) (now : Nat)
    (os : UnixOS) : HandlerOut :=
  if method ≠ "POST" then
    ⟨httpError "method not allowed" 405, [], false⟩
  else
    match parsed with
    | none => ⟨httpError "invalid request body" 400, [], false⟩
    | some (printer, payload) =>
      if printer = "" then ⟨httpError "printer name required" 400, [], false⟩
      else
        match payload with
        | none => ⟨httpError "invalid base64 data" 400, [], false⟩
        | some data =>
          let r := (sendToPrinter printer data os).1
          let base : JobData :=
            { time := now, printer := printer, bytes := data.length,
              brfText := textPreview data, hexOut := hexDump data,
              errMsg := "" }
          match r with
          | Except.error m =>
              ⟨httpError m 500, [{ base with errMsg := m }], true⟩
          | Except.ok _ =>
              ⟨{ status := 200, body := "" }, [base], true⟩

/-! Section: job event bus interleaving semantics (`bridge/debug.go` 27-74,
129-159)

`appendJob` has two critical sections: under `jobMu` it assigns `nextID`,
appends to `jobs` and trims to the last 200 entries; then, having released
`jobMu`, under `subsMu` it performs a non-blocking send of the same event
value to every subscribed channel (capacity 8, drop when full).  A
`/log-stream` handler copies `jobs` under `jobMu.RLock`, writes the copy to
its stream, then calls `subscribe()` (under `subsMu`), and finally loops
receiving from its channel into the stream until its context is cancelled,
whereupon it unsubscribes.

Each producer thread performs one `appendJob` as two atomic actions
(`record`, then `bcast`); each subscriber thread performs `connect`
(snapshot + replay: the replay writes touch only handler-local data, so
they merge soundly into the snapshot action), `register`, any number of
`deliver`s, and `close`.  Ghost fields (the append-only history `hist`,
per-subscriber `snapshot`, `snapLen`, `subIdx`, `dropped`, `clean`) record
information for stating the claims and never influence the computation of
non-ghost fields. -/

def ringCap : Nat := 200
def mboxCap : Nat := 8

/-- Producer thread state: one `appendJob(d)` call in progress. -/
inductive ProdState where
  | ready (d : JobData)
  | appended (e : JobEvent)
  | done (e : JobEvent)
deriving DecidableEq, Repr

inductive SubPhase where
  | connecting
  | snapped
  | live
  | closed
deriving DecidableEq, Repr

structure SubState where
  phase : SubPhase
  mailbox : List JobEvent
  stream : List JobEvent
  /-- Ghost: the ring copied at `connect` time. -/
  snapshot : List JobEvent
  /-- Ghost: history length at `connect` time. -/
  snapLen : Nat
  /-- Ghost: history length at `register` time. -/
  subIdx : Nat
  /-- Ghost: events dropped at this mailbox because it was full. -/
  dropped : List JobEvent
  /-- Ghost: set at `register`; true when no record raced the
  snapshot-to-register window. -/
  clean : Bool
deriving DecidableEq, Repr

structure BusState where
  ring : List JobEvent
  nextID : Nat
  prods : List ProdState
  subs : List SubState
  /-- Ghost: append-only log of all recorded events, in `jobMu` order. -/
  hist : List JobEvent
deriving DecidableEq, Repr

/-- Last `n` elements of a list (`jobs[len(jobs)-200:]`). -/
def lastN (n : Nat) (l : List α) : List α := l.drop (l.length - n)

def isAppended : ProdState → Bool
  | ProdState.appended _ => true
  | _ => false

/-- Critical section one of `appendJob` (under `jobMu`): assign the id,
append, trim the ring to `ringCap`. -/
def recordStep (σ : BusState) (p : Nat) : Option BusState :=
  match σ.prods.get? p with
  | some (ProdState.ready d) =>
      let e : JobEvent := ⟨σ.nextID, d⟩
      some { σ with
        ring := lastN ringCap (σ.ring ++ [e]),
        nextID := σ.nextID + 1,
        prods := σ.prods.set p (ProdState.appended e),
        hist := σ.hist ++ [e] }
  | _ => none

/-- Non-blocking channel send to one subscriber (`select`/`default`): only
registered (live) channels are in `subs`; a full mailbox drops the event. -/
def deliverTo (e : JobEvent) (ss : SubState) : SubState :=
  if ss.phase = SubPhase.live then
    if ss.mailbox.length < mboxCap then { ss with mailbox := ss.mailbox ++ [e] }
    else { ss with dropped := ss.dropped ++ [e] }
  else ss

/-- Critical section two of `appendJob` (under `subsMu`): broadcast the
recorded event to every subscribed mailbox. -/
def bcastStep (σ : BusState) (p : Nat) : Option BusState :=
  match σ.prods.get? p with
  | some (ProdState.appended e) =>
      some { σ with
        subs := σ.subs.map (deliverTo e),
        prods := σ.prods.set p (ProdState.done e) }
  | _ => none

/-- Snapshot-and-replay of `handleLogStream`: copy `jobs` under
`jobMu.RLock` and write the copy to the stream. -/
def connectStep (σ : BusState) (s : Nat) : Option BusState :=
  match σ.subs.get? s with
  | some ss =>
      if ss.phase = SubPhase.connecting then
        let ss' :=
          { ss with
            phase := SubPhase.snapped
            stream := σ.ring
            snapshot := σ.ring
            snapLen := σ.hist.length }
        some { σ with subs := σ.subs.set s ss' }
      else none
  | none => none

/-- Model of `subscribe()` (under `subsMu`): a fresh empty mailbox becomes
visible to broadcasters.  The ghost `clean` notes whether the history
length is unchanged since the snapshot and no producer holds a recorded
but not yet broadcast event. -/
def registerStep (σ : BusState) (s : Nat) : Option BusState :=
  match σ.subs.get? s with
  | some ss =>
      if ss.phase = SubPhase.snapped then
        let ss' :=
          { ss with
            phase := SubPhase.live
            mailbox := []
            subIdx := σ.hist.length
            clean := decide (σ.hist.length = ss.snapLen)
              && σ.prods.all (fun ps => !isAppended ps) }
        some { σ with subs := σ.subs.set s ss' }
      else none
  | none => none

/-- Receive one event from the channel and write it to the stream. -/
def deliverStep (σ : BusState) (s : Nat) : Option BusState :=
  match σ.subs.get? s with
  | some ss =>
      match ss.phase, ss.mailbox with
      | SubPhase.live, e :: rest =>
          let ss' := { ss with mailbox := rest, stream := ss.stream ++ [e] }
          some { σ with subs := σ.subs.set s ss' }
      | _, _ => none
  | none => none

/-- Model of `unsubscribe` on context cancellation. -/
def closeStep (σ : BusState) (s : Nat) : Option BusState :=
  match σ.subs.get? s with
  | some ss =>
      if ss.phase = SubPhase.live then
        let ss' := { ss with phase := SubPhase.closed }
        some { σ with subs := σ.subs.set s ss' }
      else none
  | none => none

inductive Act where
  | record (p : Nat)
  | bcast (p : Nat)
  | connect (s : Nat)
  | register (s : Nat)
  | deliver (s : Nat)
  | close (s : Nat)
deriving DecidableEq, Repr

def step (σ : BusState) : Act → Option BusState
  | Act.record p => recordStep σ p
  | Act.bcast p => bcastStep σ p
  | Act.connect s => connectStep σ s
  | Act.register s => registerStep σ s
  | Act.deliver s => deliverStep σ s
  | Act.close s => closeStep σ s

def run (σ : BusState) : List Act → Option BusState
  | [] => some σ
  | a :: rest =>
      match step σ a with
      | some σ' => run σ' rest
      | none => none

def initSub : SubState :=
  { phase := SubPhase.connecting, mailbox := [], stream := [],
    snapshot := [], snapLen := 0, subIdx := 0, dropped := [], clean := false }

/-- Initial state: empty ring, `nextID = 1`, each pending print attempt a
producer thread about to call `appendJob`, each `/log-stream` connection a
subscriber thread about to snapshot. -/
def init (ds : List JobData) (nsubs : Nat) : BusState :=
  { ring := [], nextID := 1, prods := ds.map ProdState.ready,
    subs := List.replicate nsubs initSub, hist := [] }

/-- Events currently carried by finished (`done`) producers. -/
def doneEvents (σ : BusState) : List JobEvent :=
  σ.prods.filterMap (fun ps =>
    match ps with
    | ProdState.done e => some e
    | _ => none)

/-- Observation helper: stream ids of subscriber `i`. -/
def streamIds (σ : BusState) (i : Nat) : List Nat :=
  ((σ.subs.get? i).map (fun ss => ss.stream.map JobEvent.id)).getD []

/-- Observation helper: mailbox ids of subscriber `i`. -/
def mailboxIds (σ : BusState) (i : Nat) : List Nat :=
  ((σ.subs.get? i).map (fun ss => ss.mailbox.map JobEvent.id)).getD []

/-- Observation helper: dropped-event ids of subscriber `i`. -/
def droppedIds (σ : BusState) (i : Nat) : List Nat :=
  ((σ.subs.get? i).map (fun ss => ss.dropped.map JobEvent.id)).getD []

/-! Section: list helper lemmas for the ring and the history -/

theorem lastN_sublist (n : Nat) (l : List α) : List.Sublist (lastN n l) l :=
  List.drop_sublist _ _

theorem mem_of_mem_lastN {n : Nat} {l : List α} {a : α}
    (h : a ∈ lastN n l) : a ∈ l :=
  (lastN_sublist n l).mem h

theorem lastN_map (f : α → β) (n : Nat) (l : List α) :
    (lastN n l).map f = lastN n (l.map f) := by
  simp [lastN, List.map_drop]

theorem length_lastN_le (n : Nat) (l : List α) : (lastN n l).length ≤ n := by
  simp [lastN]
  omega

theorem lastN_of_length_le {n : Nat} {l : List α} (h : l.length ≤ n) :
    lastN n l = l := by
  unfold lastN
  rw [Nat.sub_eq_zero_of_le h]
  exact List.drop_zero l

/-- Trimming an already trimmed ring after an append agrees with trimming
the whole history after the append. -/
theorem lastN_append_one (n : Nat) (l : List α) (a : α) :
    lastN n (lastN n l ++ [a]) = lastN n (l ++ [a]) := by
  rcases le_or_lt n l.length with h | h
  · have h1 : lastN n l ++ [a] = (l ++ [a]).drop (l.length - n) := by
      rw [List.drop_append_of_le_length (Nat.sub_le _ _)]
      rfl
    rw [h1]
    unfold lastN
    rw [List.drop_drop]
    congr 1
    simp only [List.length_drop, List.length_append, List.length_singleton]
    omega
  · rw [lastN_of_length_le (Nat.le_of_lt h)]

theorem take_range_one (k n : Nat) (h : k ≤ n) :
    (List.range' 1 n).take k = List.range' 1 k := by
  have happ : List.range' 1 k ++ List.range' (1 + k) (n - k) = List.range' 1 n := by
    rw [List.range'_append_1]
    congr 1
    omega
  rw [← happ, List.take_append_of_le_length (by simp)]
  simp

/-! Section: bus invariant

The invariant ties every reachable `BusState` to its ghost history: ids are
`1..hist.length` in record order, the ring is the last `ringCap` entries of
the history, every event a producer carries or a mailbox holds is a history
entry, distinct producers carry events with distinct ids, and each
subscriber's stream decomposes as its replay snapshot followed by the
events delivered from its mailbox. -/

/-- Producer `p` holds event `e` (recorded, possibly already broadcast). -/
def carries (σ : BusState) (p : Nat) (e : JobEvent) : Prop :=
  σ.prods.get? p = some (ProdState.appended e) ∨
    σ.prods.get? p = some (ProdState.done e)

/-- All events that ever reached this subscriber after registration:
written to the stream after the replay, still in the mailbox, or dropped. -/
def arrived (ss : SubState) : List JobEvent :=
  ss.stream.drop ss.snapshot.length ++ ss.mailbox ++ ss.dropped

structure SubInv (σ : BusState) (ss : SubState) : Prop where
  conn_stream : ss.phase = SubPhase.connecting →
    ss.stream = [] ∧ ss.snapshot = [] ∧ ss.mailbox = [] ∧ ss.dropped = []
  snap_stream : ss.phase = SubPhase.snapped →
    ss.stream = ss.snapshot ∧ ss.mailbox = [] ∧ ss.dropped = []
  snap_eq : ss.phase ≠ SubPhase.connecting →
    ss.snapshot = lastN ringCap (σ.hist.take ss.snapLen) ∧
      ss.snapLen ≤ σ.hist.length
  stream_eq : ss.stream = ss.snapshot ++ ss.stream.drop ss.snapshot.length
  sub_le : ss.phase = SubPhase.live ∨ ss.phase = SubPhase.closed →
    ss.snapLen ≤ ss.subIdx ∧ ss.subIdx ≤ σ.hist.length
  clean_phase : ss.clean = true →
    ss.phase = SubPhase.live ∨ ss.phase = SubPhase.closed
  clean_sub : ss.clean = true → ss.subIdx = ss.snapLen
  arrived_hist : ∀ e ∈ arrived ss, e ∈ σ.hist
  arrived_done : ∀ e ∈ arrived ss, ∃ q,
    σ.prods.get? q = some (ProdState.done e)
  arrived_nodup : ((arrived ss).map JobEvent.id).Nodup
  arrived_clean : ss.clean = true → ∀ e ∈ arrived ss, ss.subIdx < e.id
  complete : ss.phase = SubPhase.live → ∀ q e,
    σ.prods.get? q = some (ProdState.done e) → ss.subIdx < e.id →
      e ∈ arrived ss
  clean_app : ss.clean = true → ∀ q e,
    σ.prods.get? q = some (ProdState.appended e) → ss.subIdx < e.id

structure Inv (σ : BusState) : Prop where
  nextID_eq : σ.nextID = σ.hist.length + 1
  hist_ids : σ.hist.map JobEvent.id = List.range' 1 σ.hist.length
  ring_eq : σ.ring = lastN ringCap σ.hist
  carries_hist : ∀ p e, carries σ p e → e ∈ σ.hist
  carries_inj : ∀ p q ep eq, carries σ p ep → carries σ q eq → p ≠ q →
    ep.id ≠ eq.id
  subs_inv : ∀ i ss, σ.subs.get? i = some ss → SubInv σ ss

/-- Ids of history entries are bounded by the history length. -/
theorem Inv.id_le_of_mem_hist {σ : BusState} (hinv : Inv σ) {e : JobEvent}
    (he : e ∈ σ.hist) : 1 ≤ e.id ∧ e.id ≤ σ.hist.length := by
  have : e.id ∈ σ.hist.map JobEvent.id := List.mem_map_of_mem _ he
  rw [hinv.hist_ids] at this
  have := List.mem_range'_1.mp this
  omega

/-- History ids are distinct. -/
theorem Inv.hist_ids_nodup {σ : BusState} (hinv : Inv σ) :
    (σ.hist.map JobEvent.id).Nodup := by
  rw [hinv.hist_ids]
  exact List.nodup_range' 1 σ.hist.length

/-- A history entry is determined by its id. -/
theorem Inv.hist_id_inj {σ : BusState} (hinv : Inv σ) {e e' : JobEvent}
    (he : e ∈ σ.hist) (he' : e' ∈ σ.hist) (hid : e.id = e'.id) : e = e' :=
  List.inj_on_of_nodup_map hinv.hist_ids_nodup he he' hid

theorem lt_length_of_get?_eq_some {l : List α} {n : Nat} {a : α}
    (h : l.get? n = some a) : n < l.length := by
  rcases List.get?_eq_some.mp h with ⟨hl, _⟩
  exact hl

/-- A subscriber invariant only inspects the history and the producers, so
it transfers between states agreeing on those. -/
theorem subInv_congr {σ σ' : BusState} {ss : SubState} (hh : σ'.hist = σ.hist)
    (hp : σ'.prods = σ.prods) (h : SubInv σ ss) : SubInv σ' ss where
  conn_stream := h.conn_stream
  snap_stream := h.snap_stream
  snap_eq := by rw [hh]; exact h.snap_eq
  stream_eq := h.stream_eq
  sub_le := by rw [hh]; exact h.sub_le
  clean_phase := h.clean_phase
  clean_sub := h.clean_sub
  arrived_hist := by rw [hh]; exact h.arrived_hist
  arrived_done := by rw [hp]; exact h.arrived_done
  arrived_nodup := h.arrived_nodup
  arrived_clean := h.arrived_clean
  complete := by rw [hp]; exact h.complete
  clean_app := by rw [hp]; exact h.clean_app

/-- Recording (`appendJob` critical section one) preserves the invariant. -/
theorem inv_recordStep {σ σ' : BusState} {p : Nat}
    (hinv : Inv σ) (hstep : recordStep σ p = some σ') : Inv σ' := by
  unfold recordStep at hstep
  split at hstep
  case _ d hd =>
    injection hstep with hstep
    subst hstep
    have hplen : p < σ.prods.length := lt_length_of_get?_eq_some hd
    have hid : (⟨σ.nextID, d⟩ : JobEvent).id = σ.hist.length + 1 := by
      simp [hinv.nextID_eq]
    refine
      { nextID_eq := ?_, hist_ids := ?_, ring_eq := ?_, carries_hist := ?_,
        carries_inj := ?_, subs_inv := ?_ }
    · simp [hinv.nextID_eq]
    · simp only [List.map_append, List.map_cons, List.map_nil,
        hinv.hist_ids, List.length_append, List.length_cons,
        List.length_nil]
      rw [List.range'_1_concat]
      simp [hinv.nextID_eq, Nat.add_comm]
    · rw [hinv.ring_eq, lastN_append_one]
    · intro q x hq
      rcases eq_or_ne q p with rfl | hqp
      · rcases hq with hq | hq <;>
          rw [List.get?_set_eq_of_lt _ hplen] at hq <;>
          injection hq with hq
        · cases hq
          exact List.mem_append_right _ (List.mem_singleton_self _)
        · cases hq
      · have hq' : carries σ q x := by
          rcases hq with hq | hq <;>
            rw [List.get?_set_ne _ _ (Ne.symm hqp)] at hq
          · exact Or.inl hq
          · exact Or.inr hq
        exact List.mem_append_left _ (hinv.carries_hist q x hq')
    · intro q r xq xr hq hr hqr
      have hcase : ∀ z x, z ≠ p →
          carries { σ with
            ring := lastN ringCap (σ.ring ++ [⟨σ.nextID, d⟩]),
            nextID := σ.nextID + 1,
            prods := σ.prods.set p (ProdState.appended ⟨σ.nextID, d⟩),
            hist := σ.hist ++ [⟨σ.nextID, d⟩] } z x → carries σ z x := by
        intro z x hz hx
        rcases hx with hx | hx <;>
          rw [List.get?_set_ne _ _ (Ne.symm hz)] at hx
        · exact Or.inl hx
        · exact Or.inr hx
      have hnew : ∀ x,
          carries { σ with
            ring := lastN ringCap (σ.ring ++ [⟨σ.nextID, d⟩]),
            nextID := σ.nextID + 1,
            prods := σ.prods.set p (ProdState.appended ⟨σ.nextID, d⟩),
            hist := σ.hist ++ [⟨σ.nextID, d⟩] } p x → x = ⟨σ.nextID, d⟩ := by
        intro x hx
        rcases hx with hx | hx <;>
          rw [List.get?_set_eq_of_lt _ hplen] at hx <;>
          injection hx with hx <;> cases hx
        · rfl
      rcases eq_or_ne q p with rfl | hq2
      · have hxq : xq = ⟨σ.nextID, d⟩ := hnew _ hq
        have hr' : carries σ r xr := hcase r xr (Ne.symm hqr) hr
        have := (hinv.id_le_of_mem_hist (hinv.carries_hist r xr hr')).2
        have hnid := hinv.nextID_eq
        subst hxq
        simp only [hid]
        omega
      · rcases eq_or_ne r p with rfl | hr2
        · have hxr : xr = ⟨σ.nextID, d⟩ := hnew _ hr
          have hq' : carries σ q xq := hcase q xq hq2 hq
          have := (hinv.id_le_of_mem_hist (hinv.carries_hist q xq hq')).2
          have hnid := hinv.nextID_eq
          subst hxr
          simp only [hid]
          omega
        · exact hinv.carries_inj q r xq xr (hcase q xq hq2 hq)
            (hcase r xr hr2 hr) hqr
    · intro i ss hss
      have hss' : σ.subs.get? i = some ss := hss
      have h := hinv.subs_inv i ss hss'
      have hlen : ss.snapLen ≤ σ.hist.length →
          (σ.hist ++ [(⟨σ.nextID, d⟩ : JobEvent)]).take ss.snapLen =
            σ.hist.take ss.snapLen := fun hle =>
        List.take_append_of_le_length hle
      refine
        { conn_stream := h.conn_stream, snap_stream := h.snap_stream,
          snap_eq := ?_, stream_eq := h.stream_eq, sub_le := ?_,
          clean_phase := h.clean_phase, clean_sub := h.clean_sub,
          arrived_hist := ?_, arrived_done := ?_,
          arrived_nodup := h.arrived_nodup, arrived_clean := h.arrived_clean,
          complete := ?_, clean_app := ?_ }
      · intro hph
        rcases h.snap_eq hph with ⟨h1, h2⟩
        refine ⟨?_, ?_⟩
        · simpa [hlen h2] using h1
        · simp only [List.length_append, List.length_cons, List.length_nil]
          omega
      · intro hph
        rcases h.sub_le hph with ⟨h1, h2⟩
        refine ⟨h1, ?_⟩
        simp only [List.length_append, List.length_cons, List.length_nil]
        omega
      · intro x hx
        exact List.mem_append_left _ (h.arrived_hist x hx)
      · intro x hx
        rcases h.arrived_done x hx with ⟨q, hq⟩
        have hqp : q ≠ p := by
          intro hqp
          rw [hqp, hd] at hq
          cases hq
        exact ⟨q, by rw [List.get?_set_ne _ _ (Ne.symm hqp)]; exact hq⟩
      · intro hph q x hq hlt
        have hqp : q ≠ p := by
          intro hqp
          rw [hqp, List.get?_set_eq_of_lt _ hplen] at hq
          cases hq
        rw [List.get?_set_ne _ _ (Ne.symm hqp)] at hq
        exact h.complete hph q x hq hlt
      · intro hcl q x hq
        rcases eq_or_ne q p with rfl | hqp
        · rw [List.get?_set_eq_of_lt _ hplen] at hq
          injection hq with hq
          cases hq
          have := (h.sub_le (h.clean_phase hcl)).2
          have hnid := hinv.nextID_eq
          simp only [hid]
          omega
        · rw [List.get?_set_ne _ _ (Ne.symm hqp)] at hq
          exact h.clean_app hcl q x hq
  case _ =>
    simp at hstep

theorem deliverTo_phase (e : JobEvent) (ss : SubState) :
    (deliverTo e ss).phase = ss.phase := by
  unfold deliverTo
  split <;> (try split) <;> rfl

theorem deliverTo_stream (e : JobEvent) (ss : SubState) :
    (deliverTo e ss).stream = ss.stream := by
  unfold deliverTo
  split <;> (try split) <;> rfl

theorem deliverTo_snapshot (e : JobEvent) (ss : SubState) :
    (deliverTo e ss).snapshot = ss.snapshot := by
  unfold deliverTo
  split <;> (try split) <;> rfl

theorem deliverTo_snapLen (e : JobEvent) (ss : SubState) :
    (deliverTo e ss).snapLen = ss.snapLen := by
  unfold deliverTo
  split <;> (try split) <;> rfl

theorem deliverTo_subIdx (e : JobEvent) (ss : SubState) :
    (deliverTo e ss).subIdx = ss.subIdx := by
  unfold deliverTo
  split <;> (try split) <;> rfl

theorem deliverTo_clean (e : JobEvent) (ss : SubState) :
    (deliverTo e ss).clean = ss.clean := by
  unfold deliverTo
  split <;> (try split) <;> rfl

theorem deliverTo_not_live (e : JobEvent) (ss : SubState)
    (h : ¬ss.phase = SubPhase.live) : deliverTo e ss = ss := by
  unfold deliverTo
  rw [if_neg h]

/-- Delivery to a live subscriber adds the event once, somewhere in its
arrived multiset (mailbox tail or dropped list). -/
theorem arrived_deliverTo_perm (e : JobEvent) (ss : SubState)
    (hl : ss.phase = SubPhase.live) :
    List.Perm (arrived (deliverTo e ss)) (arrived ss ++ [e]) := by
  unfold deliverTo arrived
  rw [if_pos hl]
  by_cases hm : ss.mailbox.length < mboxCap
  · rw [if_pos hm]
    simp only [List.append_assoc]
    exact List.Perm.append_left _ (List.Perm.append_left _ List.perm_append_comm)
  · rw [if_neg hm]
    simp only [List.append_assoc]
    exact List.Perm.refl _

/-- Broadcasting (`appendJob` critical section two) preserves the invariant. -/
theorem inv_bcastStep {σ σ' : BusState} {p : Nat}
    (hinv : Inv σ) (hstep : bcastStep σ p = some σ') : Inv σ' := by
  unfold bcastStep at hstep
  split at hstep
  case _ e hd =>
    injection hstep with hstep
    subst hstep
    have hplen : p < σ.prods.length := lt_length_of_get?_eq_some hd
    have hto : ∀ q x,
        carries { σ with
          subs := σ.subs.map (deliverTo e),
          prods := σ.prods.set p (ProdState.done e) } q x → carries σ q x := by
      intro q x hx
      rcases eq_or_ne q p with rfl | hqp
      · rcases hx with hx | hx <;>
          rw [List.get?_set_eq_of_lt _ hplen] at hx <;>
          injection hx with hx <;> cases hx
        exact Or.inl hd
      · rcases hx with hx | hx <;>
          rw [List.get?_set_ne _ _ (Ne.symm hqp)] at hx
        · exact Or.inl hx
        · exact Or.inr hx
    refine
      { nextID_eq := hinv.nextID_eq, hist_ids := hinv.hist_ids,
        ring_eq := hinv.ring_eq, carries_hist := ?_, carries_inj := ?_,
        subs_inv := ?_ }
    · intro q x hq
      exact hinv.carries_hist q x (hto q x hq)
    · intro q r xq xr hq hr hqr
      exact hinv.carries_inj q r xq xr (hto q xq hq) (hto r xr hr) hqr
    · intro i ss' hss'
      rw [List.get?_map] at hss'
      rcases Option.map_eq_some'.mp hss' with ⟨ss, hss, rfl⟩
      have h := hinv.subs_inv i ss hss
      have hdone_wit : ∀ x, x ∈ arrived ss → ∃ q,
          (σ.prods.set p (ProdState.done e)).get? q =
            some (ProdState.done x) := by
        intro x hx
        rcases h.arrived_done x hx with ⟨q, hq⟩
        have hqp : q ≠ p := by
          intro hqp
          rw [hqp, hd] at hq
          cases hq
        exact ⟨q, by rw [List.get?_set_ne _ _ (Ne.symm hqp)]; exact hq⟩
      have hid_new : ∀ x ∈ arrived ss, x.id ≠ e.id := by
        intro x hx
        rcases h.arrived_done x hx with ⟨q, hq⟩
        have hqp : p ≠ q := by
          intro hqp
          rw [← hqp, hd] at hq
          cases hq
        exact fun hxe =>
          hinv.carries_inj p q e x (Or.inl hd) (Or.inr hq) hqp hxe.symm
      by_cases hl : ss.phase = SubPhase.live
      · have hperm := arrived_deliverTo_perm e ss hl
        have hmem : ∀ x, x ∈ arrived (deliverTo e ss) ↔
            x ∈ arrived ss ∨ x = e := by
          intro x
          rw [hperm.mem_iff]
          simp
        refine
          { conn_stream := ?_, snap_stream := ?_, snap_eq := ?_,
            stream_eq := ?_, sub_le := ?_, clean_phase := ?_,
            clean_sub := ?_, arrived_hist := ?_, arrived_done := ?_,
            arrived_nodup := ?_, arrived_clean := ?_, complete := ?_,
            clean_app := ?_ }
        · intro hph
          rw [deliverTo_phase, hl] at hph
          cases hph
        · intro hph
          rw [deliverTo_phase, hl] at hph
          cases hph
        · intro _
          rw [deliverTo_snapshot, deliverTo_snapLen]
          exact h.snap_eq (by rw [hl]; intro hc; cases hc)
        · rw [deliverTo_stream, deliverTo_snapshot]
          exact h.stream_eq
        · intro _
          rw [deliverTo_snapLen, deliverTo_subIdx]
          exact h.sub_le (Or.inl hl)
        · intro _
          rw [deliverTo_phase]
          exact Or.inl hl
        · rw [deliverTo_clean, deliverTo_subIdx, deliverTo_snapLen]
          exact h.clean_sub
        · intro x hx
          rcases (hmem x).mp hx with hx | rfl
          · exact h.arrived_hist x hx
          · exact hinv.carries_hist p x (Or.inl hd)
        · intro x hx
          rcases (hmem x).mp hx with hx | rfl
          · exact hdone_wit x hx
          · exact ⟨p, by rw [List.get?_set_eq_of_lt _ hplen]⟩
        · refine ((hperm.map JobEvent.id).nodup_iff).mpr ?_
          rw [List.map_append]
          rw [List.nodup_append]
          refine ⟨h.arrived_nodup, by simp, ?_⟩
          intro a ha hae
          rcases List.mem_map.mp ha with ⟨x, hx, rfl⟩
          simp only [List.map_cons, List.map_nil, List.mem_singleton] at hae
          exact hid_new x hx hae
        · intro hcl x hx
          rw [deliverTo_clean] at hcl
          rw [deliverTo_subIdx]
          rcases (hmem x).mp hx with hx | rfl
          · exact h.arrived_clean hcl x hx
          · exact h.clean_app hcl p x hd
        · intro _ q x hq hlt
          rw [deliverTo_subIdx] at hlt
          rcases eq_or_ne q p with rfl | hqp
          · rw [List.get?_set_eq_of_lt _ hplen] at hq
            injection hq with hq
            cases hq
            exact (hmem e).mpr (Or.inr rfl)
          · rw [List.get?_set_ne _ _ (Ne.symm hqp)] at hq
            exact (hmem x).mpr (Or.inl (h.complete hl q x hq hlt))
        · intro hcl q x hq
          rw [deliverTo_clean] at hcl
          rw [deliverTo_subIdx]
          rcases eq_or_ne q p with rfl | hqp
          · rw [List.get?_set_eq_of_lt _ hplen] at hq
            cases hq
          · rw [List.get?_set_ne _ _ (Ne.symm hqp)] at hq
            exact h.clean_app hcl q x hq
      · rw [deliverTo_not_live e ss hl]
        refine
          { conn_stream := h.conn_stream, snap_stream := h.snap_stream,
            snap_eq := h.snap_eq, stream_eq := h.stream_eq,
            sub_le := h.sub_le, clean_phase := h.clean_phase,
            clean_sub := h.clean_sub, arrived_hist := h.arrived_hist,
            arrived_done := hdone_wit,
            arrived_nodup := h.arrived_nodup,
            arrived_clean := h.arrived_clean, complete := ?_,
            clean_app := ?_ }
        · intro hph
          exact absurd hph hl
        · intro hcl q x hq
          rcases eq_or_ne q p with rfl | hqp
          · rw [List.get?_set_eq_of_lt _ hplen] at hq
            cases hq
          · rw [List.get?_set_ne _ _ (Ne.symm hqp)] at hq
            exact h.clean_app hcl q x hq
  case _ =>
    simp at hstep

/-- Connecting (snapshot + replay) preserves the invariant. -/
theorem inv_connectStep {σ σ' : BusState} {s : Nat}
    (hinv : Inv σ) (hstep : connectStep σ s = some σ') : Inv σ' := by
  unfold connectStep at hstep
  split at hstep
  case _ ss hss =>
    split at hstep
    case isTrue hph =>
      injection hstep with hstep
      subst hstep
      have hslen : s < σ.subs.length := lt_length_of_get?_eq_some hss
      have hold := hinv.subs_inv s ss hss
      rcases hold.conn_stream hph with ⟨hstr, hsnap, hmb, hdr⟩
      refine
        { nextID_eq := hinv.nextID_eq, hist_ids := hinv.hist_ids,
          ring_eq := hinv.ring_eq, carries_hist := hinv.carries_hist,
          carries_inj := hinv.carries_inj, subs_inv := ?_ }
      intro i ssi hssi
      rcases eq_or_ne i s with rfl | his
      · rw [List.get?_set_eq_of_lt _ hslen] at hssi
        injection hssi with hssi
        subst hssi
        have hclf : ss.clean = true → False := by
          intro hcl
          have := hold.clean_phase hcl
          rw [hph] at this
          rcases this with h | h <;> cases h
        refine
          { conn_stream := ?_, snap_stream := ?_, snap_eq := ?_,
            stream_eq := ?_, sub_le := ?_, clean_phase := ?_,
            clean_sub := ?_, arrived_hist := ?_, arrived_done := ?_,
            arrived_nodup := ?_, arrived_clean := ?_, complete := ?_,
            clean_app := ?_ }
        · intro hc
          cases hc
        · intro _
          exact ⟨rfl, hmb, hdr⟩
        · intro _
          refine ⟨?_, Nat.le_refl _⟩
          rw [List.take_length]
          exact hinv.ring_eq
        · simp [List.drop_length]
        · intro hor
          rcases hor with h | h <;> cases h
        · intro hcl
          exact absurd hcl (fun hc => hclf hc)
        · intro hcl
          exact absurd hcl (fun hc => hclf hc)
        · intro x hx
          simp [arrived, List.drop_length, hmb, hdr] at hx
        · intro x hx
          simp [arrived, List.drop_length, hmb, hdr] at hx
        · simp [arrived, List.drop_length, hmb, hdr]
        · intro hcl
          exact absurd hcl (fun hc => hclf hc)
        · intro hc
          cases hc
        · intro hcl
          exact absurd hcl (fun hc => hclf hc)
      · rw [List.get?_set_ne _ _ (Ne.symm his)] at hssi
        exact @subInv_congr σ _ _ rfl rfl (hinv.subs_inv i ssi hssi)
    case isFalse =>
      simp at hstep
  case _ =>
    simp at hstep

/-- Registration (`subscribe`) preserves the invariant. -/
theorem inv_registerStep {σ σ' : BusState} {s : Nat}
    (hinv : Inv σ) (hstep : registerStep σ s = some σ') : Inv σ' := by
  unfold registerStep at hstep
  split at hstep
  case _ ss hss =>
    split at hstep
    case isTrue hph =>
      injection hstep with hstep
      subst hstep
      have hslen : s < σ.subs.length := lt_length_of_get?_eq_some hss
      have hold := hinv.subs_inv s ss hss
      rcases hold.snap_stream hph with ⟨hstr, hmb, hdr⟩
      have hsnap := hold.snap_eq (by rw [hph]; intro hc; cases hc)
      refine
        { nextID_eq := hinv.nextID_eq, hist_ids := hinv.hist_ids,
          ring_eq := hinv.ring_eq, carries_hist := hinv.carries_hist,
          carries_inj := hinv.carries_inj, subs_inv := ?_ }
      intro i ssi hssi
      rcases eq_or_ne i s with rfl | his
      · rw [List.get?_set_eq_of_lt _ hslen] at hssi
        injection hssi with hssi
        subst hssi
        refine
          { conn_stream := ?_, snap_stream := ?_, snap_eq := ?_,
            stream_eq := ?_, sub_le := ?_, clean_phase := ?_,
            clean_sub := ?_, arrived_hist := ?_, arrived_done := ?_,
            arrived_nodup := ?_, arrived_clean := ?_, complete := ?_,
            clean_app := ?_ }
        · intro hc
          cases hc
        · intro hc
          cases hc
        · intro _
          exact hsnap
        · exact hold.stream_eq
        · intro _
          exact ⟨hsnap.2, Nat.le_refl _⟩
        · intro _
          exact Or.inl rfl
        · intro hcl
          have := (Bool.and_eq_true _ _).mp hcl
          exact of_decide_eq_true this.1
        · intro x hx
          simp [arrived, hstr, hdr, List.drop_length] at hx
        · intro x hx
          simp [arrived, hstr, hdr, List.drop_length] at hx
        · simp [arrived, hstr, hdr, List.drop_length]
        · intro _ x hx
          simp [arrived, hstr, hdr, List.drop_length] at hx
        · intro _ q x hq hlt
          have hxh : x ∈ σ.hist := hinv.carries_hist q x (Or.inr hq)
          have := (hinv.id_le_of_mem_hist hxh).2
          have hlt2 : σ.hist.length < x.id := hlt
          omega
        · intro hcl q x hq
          have hall := (Bool.and_eq_true _ _).mp hcl
          have hmem : ProdState.appended x ∈ σ.prods := List.get?_mem hq
          have := List.all_eq_true.mp hall.2 _ hmem
          simp [isAppended] at this
      · rw [List.get?_set_ne _ _ (Ne.symm his)] at hssi
        exact @subInv_congr σ _ _ rfl rfl (hinv.subs_inv i ssi hssi)
    case isFalse =>
      simp at hstep
  case _ =>
    simp at hstep

/-- Receiving one event from the mailbox preserves the invariant. -/
theorem inv_deliverStep {σ σ' : BusState} {s : Nat}
    (hinv : Inv σ) (hstep : deliverStep σ s = some σ') : Inv σ' := by
  unfold deliverStep at hstep
  split at hstep
  case _ ss hss =>
    split at hstep
    case _ e rest hph hmb =>
      injection hstep with hstep
      subst hstep
      have hslen : s < σ.subs.length := lt_length_of_get?_eq_some hss
      have hold := hinv.subs_inv s ss hss
      have hdrop : (ss.stream ++ [e]).drop ss.snapshot.length =
          ss.stream.drop ss.snapshot.length ++ [e] := by
        conv_lhs => rw [hold.stream_eq]
        rw [List.append_assoc, List.drop_left]
      have harr : arrived { ss with mailbox := rest, stream := ss.stream ++ [e] } = arrived ss := by
        unfold arrived
        simp only []
        rw [hdrop, hmb]
        simp [List.append_assoc]
      refine
        { nextID_eq := hinv.nextID_eq, hist_ids := hinv.hist_ids,
          ring_eq := hinv.ring_eq, carries_hist := hinv.carries_hist,
          carries_inj := hinv.carries_inj, subs_inv := ?_ }
      intro i ssi hssi
      rcases eq_or_ne i s with rfl | his
      · rw [List.get?_set_eq_of_lt _ hslen] at hssi
        injection hssi with hssi
        subst hssi
        refine
          { conn_stream := ?_, snap_stream := ?_, snap_eq := ?_,
            stream_eq := ?_, sub_le := ?_, clean_phase := ?_,
            clean_sub := ?_, arrived_hist := ?_, arrived_done := ?_,
            arrived_nodup := ?_, arrived_clean := ?_, complete := ?_,
            clean_app := ?_ }
        · intro hc
          have hc2 : ss.phase = SubPhase.connecting := hc
          rw [hph] at hc2
          cases hc2
        · intro hc
          have hc2 : ss.phase = SubPhase.snapped := hc
          rw [hph] at hc2
          cases hc2
        · intro _
          exact hold.snap_eq (by rw [hph]; intro hc; cases hc)
        · show ss.stream ++ [e] = ss.snapshot ++
            ((ss.stream ++ [e]).drop ss.snapshot.length)
          rw [hdrop]
          conv_lhs => rw [hold.stream_eq]
          rw [List.append_assoc]
        · intro _
          exact hold.sub_le (Or.inl hph)
        · intro hcl
          exact hold.clean_phase hcl
        · exact hold.clean_sub
        · intro x hx
          rw [harr] at hx
          exact hold.arrived_hist x hx
        · intro x hx
          rw [harr] at hx
          exact hold.arrived_done x hx
        · rw [harr]
          exact hold.arrived_nodup
        · intro hcl x hx
          rw [harr] at hx
          exact hold.arrived_clean hcl x hx
        · intro _ q x hq hlt
          rw [harr]
          exact hold.complete hph q x hq hlt
        · intro hcl q x hq
          exact hold.clean_app hcl q x hq
      · rw [List.get?_set_ne _ _ (Ne.symm his)] at hssi
        exact @subInv_congr σ _ _ rfl rfl (hinv.subs_inv i ssi hssi)
    case _ =>
      simp at hstep
  case _ =>
    simp at hstep

/-- Unsubscribing preserves the invariant. -/
theorem inv_closeStep {σ σ' : BusState} {s : Nat}
    (hinv : Inv σ) (hstep : closeStep σ s = some σ') : Inv σ' := by
  unfold closeStep at hstep
  split at hstep
  case _ ss hss =>
    split at hstep
    case isTrue hph =>
      injection hstep with hstep
      subst hstep
      have hslen : s < σ.subs.length := lt_length_of_get?_eq_some hss
      have hold := hinv.subs_inv s ss hss
      refine
        { nextID_eq := hinv.nextID_eq, hist_ids := hinv.hist_ids,
          ring_eq := hinv.ring_eq, carries_hist := hinv.carries_hist,
          carries_inj := hinv.carries_inj, subs_inv := ?_ }
      intro i ssi hssi
      rcases eq_or_ne i s with rfl | his
      · rw [List.get?_set_eq_of_lt _ hslen] at hssi
        injection hssi with hssi
        subst hssi
        refine
          { conn_stream := ?_, snap_stream := ?_, snap_eq := ?_,
            stream_eq := hold.stream_eq, sub_le := ?_, clean_phase := ?_,
            clean_sub := hold.clean_sub, arrived_hist := hold.arrived_hist,
            arrived_done := hold.arrived_done,
            arrived_nodup := hold.arrived_nodup,
            arrived_clean := hold.arrived_clean, complete := ?_,
            clean_app := hold.clean_app }
        · intro hc
          cases hc
        · intro hc
          cases hc
        · intro _
          exact hold.snap_eq (by rw [hph]; intro hc; cases hc)
        · intro _
          exact hold.sub_le (Or.inl hph)
        · intro _
          exact Or.inr rfl
        · intro hc
          cases hc
      · rw [List.get?_set_ne _ _ (Ne.symm his)] at hssi
        exact @subInv_congr σ _ _ rfl rfl (hinv.subs_inv i ssi hssi)
    case isFalse =>
      simp at hstep
  case _ =>
    simp at hstep

/-- Every step preserves the invariant. -/
theorem inv_step {σ σ' : BusState} {a : Act}
    (hinv : Inv σ) (hstep : step σ a = some σ') : Inv σ' := by
  cases a with
  | record p => exact inv_recordStep hinv hstep
  | bcast p => exact inv_bcastStep hinv hstep
  | connect s => exact inv_connectStep hinv hstep
  | register s => exact inv_registerStep hinv hstep
  | deliver s => exact inv_deliverStep hinv hstep
  | close s => exact inv_closeStep hinv hstep

/-- The initial state satisfies the invariant. -/
theorem inv_init (ds : List JobData) (nsubs : Nat) : Inv (init ds nsubs) := by
  refine
    { nextID_eq := ?_, hist_ids := ?_, ring_eq := ?_,
      carries_hist := ?_, carries_inj := ?_, subs_inv := ?_ }
  · rfl
  · rfl
  · show ([] : List JobEvent) = lastN ringCap []
    simp [lastN]
  · intro q x hq
    rcases hq with hq | hq <;>
      · rw [show (init ds nsubs).prods = ds.map ProdState.ready from rfl,
          List.get?_map] at hq
        rcases Option.map_eq_some'.mp hq with ⟨d, _, hd⟩
        cases hd
  · intro q r xq xr hq _ _
    rcases hq with hq | hq <;>
      · rw [show (init ds nsubs).prods = ds.map ProdState.ready from rfl,
          List.get?_map] at hq
        rcases Option.map_eq_some'.mp hq with ⟨d, _, hd⟩
        cases hd
  · intro i ssi hssi
    have : ssi = initSub := by
      have hm : ssi ∈ List.replicate nsubs initSub := List.get?_mem hssi
      exact List.eq_of_mem_replicate hm
    subst this
    refine
      { conn_stream := ?_, snap_stream := ?_, snap_eq := ?_,
        stream_eq := rfl, sub_le := ?_, clean_phase := ?_, clean_sub := ?_,
        arrived_hist := ?_, arrived_done := ?_, arrived_nodup := ?_,
        arrived_clean := ?_, complete := ?_, clean_app := ?_ }
    · intro _
      exact ⟨rfl, rfl, rfl, rfl⟩
    · intro hc
      cases hc
    · intro hc
      exact absurd rfl hc
    · intro hor
      rcases hor with h | h <;> cases h
    · intro hc
      cases hc
    · intro hc
      cases hc
    · intro x hx
      cases hx
    · intro x hx
      cases hx
    · exact List.nodup_nil
    · intro hc
      cases hc
    · intro hc
      cases hc
    · intro hc
      cases hc

/-- Invariance along any interleaving. -/
theorem inv_run {σ σ' : BusState} {acts : List Act}
    (hinv : Inv σ) (hrun : run σ acts = some σ') : Inv σ' := by
  induction acts generalizing σ with
  | nil =>
    unfold run at hrun
    injection hrun with hrun
    subst hrun
    exact hinv
  | cons a rest ih =>
    unfold run at hrun
    split at hrun
    case _ σ₁ hstep =>
      exact ih (inv_step hinv hstep) hrun
    case _ =>
      simp at hrun

/-! Section: claim theorems for the event bus -/

/-- C3: the job ring never holds more than 200 events; an append evicts the
oldest first, and events are never removed any other way — equivalently, in
every reachable state the ring is exactly the suffix of the append-only
record history capped at 200 entries. -/
theorem ring_capacity_fifo (ds : List JobData) (nsubs : Nat)
    (acts : List Act) (σ : BusState)
    (hrun : run (init ds nsubs) acts = some σ) :
    σ.ring.length ≤ 200 ∧ σ.ring = lastN 200 σ.hist := by
  have hinv := inv_run (inv_init ds nsubs) hrun
  constructor
  · rw [hinv.ring_eq]
    exact length_lastN_le ringCap σ.hist
  · rw [hinv.ring_eq]
    rfl

def dA : JobData :=
  { time := 0, printer := "ViewPlus", bytes := 5, brfText := "hello",
    hexOut := "", errMsg := "" }

def dB : JobData :=
  { time := 1, printer := "Index", bytes := 3, brfText := "abc",
    hexOut := "", errMsg := "" }

def emptyBus : BusState := init [] 0

def sC3 : BusState :=
  (run (init [dA, dB] 0) [Act.record 0, Act.record 1]).getD emptyBus

theorem ring_capacity_fifo_witness :
    run (init [dA, dB] 0) [Act.record 0, Act.record 1] = some sC3 ∧
    sC3.ring.length ≤ 200 ∧ sC3.ring = lastN 200 sC3.hist := by
  exact ⟨rfl, ring_capacity_fifo [dA, dB] 0
    [Act.record 0, Act.record 1] sC3 rfl⟩

/-- C2 (amended): sequence ids are assigned strictly increasing and unique,
in the order the history lock is acquired, which is the order of ring
appends (the ring is always a suffix of the history); the broadcast order,
however, can differ from the id order when `appendJob` calls are
concurrent (see the counterexample). -/
theorem sequence_ids_strictly_increasing (ds : List JobData) (nsubs : Nat)
    (acts : List Act) (σ : BusState)
    (hrun : run (init ds nsubs) acts = some σ) :
    σ.hist.map JobEvent.id = List.range' 1 σ.hist.length ∧
    List.Pairwise (· < ·) (σ.hist.map JobEvent.id) ∧
    σ.ring = lastN 200 σ.hist := by
  have hinv := inv_run (inv_init ds nsubs) hrun
  refine ⟨hinv.hist_ids, ?_, by rw [hinv.ring_eq]; rfl⟩
  rw [hinv.hist_ids]
  exact List.pairwise_lt_range' 1 σ.hist.length

/-- C2, counterexample to the broadcast-order clause: two concurrent
`appendJob` calls record ids 1 then 2, but the second caller acquires the
subscriber lock first, so the subscriber's mailbox receives id 2 before
id 1 — events are not broadcast in the order they were appended. -/
theorem sequence_ids_broadcast_order_counterexample :
    (run (init [dA, dB] 1)
        [Act.connect 0, Act.register 0, Act.record 0, Act.record 1,
         Act.bcast 1, Act.bcast 0]).map
      (fun σ => (σ.hist.map JobEvent.id, mailboxIds σ 0)) =
      some ([1, 2], [2, 1]) := by
  decide

def sC2 : BusState := (run (init [dA, dB] 0) [Act.record 0]).getD emptyBus

theorem sequence_ids_strictly_increasing_witness :
    run (init [dA, dB] 0) [Act.record 0] = some sC2 ∧
    sC2.hist.map JobEvent.id = List.range' 1 sC2.hist.length ∧
    List.Pairwise (· < ·) (sC2.hist.map JobEvent.id) ∧
    sC2.ring = lastN 200 sC2.hist := by
  exact ⟨rfl, sequence_ids_strictly_increasing [dA, dB] 0
    [Act.record 0] sC2 rfl⟩

/-- C9: every event sitting in a subscriber mailbox is, field for field and
including its assigned sequence id, a stored history entry, and it is the
unique history entry with that id. -/
theorem delivered_event_matches_stored (ds : List JobData) (nsubs : Nat)
    (acts : List Act) (σ : BusState)
    (hrun : run (init ds nsubs) acts = some σ)
    (i : Nat) (ss : SubState) (hss : σ.subs.get? i = some ss) :
    ∀ e ∈ ss.mailbox, e ∈ σ.hist ∧ ∀ x ∈ σ.hist, x.id = e.id → x = e := by
  have hinv := inv_run (inv_init ds nsubs) hrun
  have h := hinv.subs_inv i ss hss
  intro e he
  have hmem : e ∈ arrived ss := by
    unfold arrived
    exact List.mem_append_left _ (List.mem_append_right _ he)
  have heh : e ∈ σ.hist := h.arrived_hist e hmem
  exact ⟨heh, fun x hx hid => hinv.hist_id_inj hx heh hid⟩

def sC9 : BusState :=
  (run (init [dA] 1)
      [Act.connect 0, Act.register 0, Act.record 0, Act.bcast 0]).getD
    emptyBus

def ssC9 : SubState := (sC9.subs.get? 0).getD initSub

theorem delivered_event_matches_stored_witness :
    run (init [dA] 1)
        [Act.connect 0, Act.register 0, Act.record 0, Act.bcast 0] =
      some sC9 ∧
    sC9.subs.get? 0 = some ssC9 ∧
    (⟨1, dA⟩ : JobEvent) ∈ ssC9.mailbox ∧
    (⟨1, dA⟩ : JobEvent) ∈ sC9.hist ∧
    (∀ x ∈ sC9.hist, x.id = (⟨1, dA⟩ : JobEvent).id → x = ⟨1, dA⟩) := by
  have h := delivered_event_matches_stored [dA] 1
    [Act.connect 0, Act.register 0, Act.record 0, Act.bcast 0] sC9 rfl
    0 ssC9 rfl ⟨1, dA⟩ (by decide)
  exact ⟨rfl, rfl, by decide, h.1, h.2⟩

/-- C1 (amended): a `/log-stream` connection whose replay window is not
raced by a concurrent `appendJob` — no event recorded between its history
snapshot and its registration, and no recorded-but-unbroadcast event
pending at registration (the ghost `clean` flag) — writes the ring as
copied at connection time first, followed only by events delivered from
its mailbox; no sequence id repeats anywhere in the stream, and every
event whose record completed after registration reaches the stream, its
mailbox, or its drop list (the declared best-effort exception). -/
theorem logStream_replay_then_live_tail
    (ds : List JobData) (nsubs : Nat) (acts : List Act) (σ : BusState)
    (hrun : run (init ds nsubs) acts = some σ)
    (i : Nat) (ss : SubState) (hss : σ.subs.get? i = some ss)
    (hlive : ss.phase = SubPhase.live) (hclean : ss.clean = true) :
    ss.stream = ss.snapshot ++ ss.stream.drop ss.snapshot.length ∧
    ss.snapshot = lastN 200 (σ.hist.take ss.snapLen) ∧
    (ss.stream.map JobEvent.id).Nodup ∧
    (∀ e ∈ doneEvents σ, ss.subIdx < e.id →
      e ∈ ss.stream ∨ e ∈ ss.mailbox ∨ e ∈ ss.dropped) := by
  have hinv := inv_run (inv_init ds nsubs) hrun
  have h := hinv.subs_inv i ss hss
  have hnc : ss.phase ≠ SubPhase.connecting := by
    rw [hlive]
    intro hc
    cases hc
  have hsnap := h.snap_eq hnc
  refine ⟨h.stream_eq, by rw [hsnap.1]; rfl, ?_, ?_⟩
  · have hsnapids : ss.snapshot.map JobEvent.id =
        lastN ringCap (List.range' 1 ss.snapLen) := by
      rw [hsnap.1, lastN_map, List.map_take, hinv.hist_ids,
        take_range_one _ _ hsnap.2]
    have hsnap_nodup : (ss.snapshot.map JobEvent.id).Nodup := by
      rw [hsnapids]
      exact List.Nodup.sublist (lastN_sublist _ _)
        (List.nodup_range' 1 ss.snapLen)
    have hsnap_le : ∀ a ∈ ss.snapshot.map JobEvent.id, a ≤ ss.snapLen := by
      intro a ha
      rw [hsnapids] at ha
      have := List.mem_range'_1.mp (mem_of_mem_lastN ha)
      omega
    obtain ⟨t, ht⟩ : ∃ t, ss.stream = ss.snapshot ++ t := ⟨_, h.stream_eq⟩
    have htD : t = ss.stream.drop ss.snapshot.length := by
      rw [ht, List.drop_left]
    have hT : t.Sublist (arrived ss) := by
      rw [htD]
      unfold arrived
      exact (List.sublist_append_left _ _).trans
        (List.sublist_append_left _ _)
    have hT_nodup : (t.map JobEvent.id).Nodup :=
      List.Nodup.sublist (hT.map _) h.arrived_nodup
    have hT_gt : ∀ a ∈ t.map JobEvent.id, ss.snapLen < a := by
      intro a ha
      rcases List.mem_map.mp ha with ⟨x, hx, rfl⟩
      have hxa : x ∈ arrived ss := hT.mem hx
      have h1 := h.arrived_clean hclean x hxa
      have h2 := h.clean_sub hclean
      omega
    rw [ht, List.map_append]
    rw [List.nodup_append]
    refine ⟨hsnap_nodup, hT_nodup, ?_⟩
    intro a ha hb
    have h1 := hsnap_le a ha
    have h2 := hT_gt a hb
    omega
  · intro e he hlt
    rcases List.mem_filterMap.mp he with ⟨ps, hps, hfn⟩
    cases ps with
    | ready d => cases hfn
    | appended x => cases hfn
    | done x =>
      injection hfn with hfn
      subst hfn
      rcases List.mem_iff_get?.mp hps with ⟨q, hq⟩
      have harr := h.complete hlive q x hq hlt
      unfold arrived at harr
      rcases List.mem_append.mp harr with h1 | h2
      · rcases List.mem_append.mp h1 with hD | hmb
        · left
          rw [h.stream_eq]
          exact List.mem_append_right _ hD
        · exact Or.inr (Or.inl hmb)
      · exact Or.inr (Or.inr h2)

/-- C1, counterexample to the claim as stated: `handleLogStream` copies the
ring under the read lock and only then subscribes, so an `appendJob` whose
ring append precedes the snapshot but whose broadcast lands after the
subscription delivers the same event twice — the stream carries sequence
id 1 twice although no mailbox was ever full. -/
theorem logStream_duplicate_counterexample :
    (run (init [dA] 1)
        [Act.record 0, Act.connect 0, Act.register 0, Act.bcast 0,
         Act.deliver 0]).map
      (fun σ => (streamIds σ 0, droppedIds σ 0)) = some ([1, 1], []) := by
  decide

def sC1 : BusState :=
  (run (init [dA, dB] 1)
      [Act.record 0, Act.bcast 0, Act.connect 0, Act.register 0,
       Act.record 1, Act.bcast 1, Act.deliver 0]).getD emptyBus

def ssC1 : SubState := (sC1.subs.get? 0).getD initSub

theorem logStream_replay_then_live_tail_witness :
    run (init [dA, dB] 1)
        [Act.record 0, Act.bcast 0, Act.connect 0, Act.register 0,
         Act.record 1, Act.bcast 1, Act.deliver 0] = some sC1 ∧
    sC1.subs.get? 0 = some ssC1 ∧
    ssC1.phase = SubPhase.live ∧ ssC1.clean = true ∧
    (ssC1.stream = ssC1.snapshot ++ ssC1.stream.drop ssC1.snapshot.length ∧
     ssC1.snapshot = lastN 200 (sC1.hist.take ssC1.snapLen) ∧
     (ssC1.stream.map JobEvent.id).Nodup ∧
     (∀ e ∈ doneEvents sC1, ssC1.subIdx < e.id →
       e ∈ ssC1.stream ∨ e ∈ ssC1.mailbox ∨ e ∈ ssC1.dropped)) := by
  refine ⟨rfl, rfl, by decide, by decide, ?_⟩
  exact logStream_replay_then_live_tail [dA, dB] 1
    [Act.record 0, Act.bcast 0, Act.connect 0, Act.register 0,
     Act.record 1, Act.bcast 1, Act.deliver 0] sC1 rfl 0 ssC1 rfl
    (by decide) (by decide)

/-! Section: claim theorems for hexDump, printer enumeration and the Unix
backend -/

/-- C10 (code bug): the hex dump gutter is misaligned when the final row
holds exactly 8 bytes.  On a 24-byte input the full first row puts the bar
at column 56 but the 8-byte final row puts it at column 57: the padding
branch adds one for the missing mid-group space whenever the row length is
at most 8, yet at exactly 8 that space was already written by the `j == 7`
case.  A 23-byte input (7-byte final row) stays aligned. -/
theorem hexDump_gutter_misaligned_at_eight :
    hexDumpGutterCols (List.replicate 24 97) = [56, 57] ∧
    hexDumpGutterCols (List.replicate 23 97) = [56, 56] := by
  decide

/-- C4, counterexample: when enumeration yields no queue names the Go nil
slice is JSON-encoded as `null`, not as an empty array. -/
theorem printers_empty_counterexample :
    handlePrinters none none = { status := 200, body := "null\n" } ∧
    (handlePrinters none none).body ≠ "[]" ∧
    (handlePrinters none none).body ≠ "[]\n" := by
  decide

/-- C4 (amended): `GET /printers` always answers 200 — the absence of
queues is never an error — with the JSON encoding of the queue-name list;
when no queues exist the body is `null` (the Go nil-slice encoding), and
otherwise it is a JSON array of the names. -/
theorem printers_endpoint_response (lpstatA lpstatPlain : Option String) :
    (handlePrinters lpstatA lpstatPlain).status = 200 ∧
    (listPrinters lpstatA lpstatPlain = [] →
      (handlePrinters lpstatA lpstatPlain).body = "null\n") ∧
    (listPrinters lpstatA lpstatPlain ≠ [] →
      (handlePrinters lpstatA lpstatPlain).body =
        "[" ++ String.intercalate ","
          ((listPrinters lpstatA lpstatPlain).map goJsonString)
          ++ "]" ++ "\n") := by
  refine ⟨rfl, ?_, ?_⟩
  · intro hempty
    show encodePrinters (listPrinters lpstatA lpstatPlain) = "null\n"
    rw [hempty]
    rfl
  · intro hne
    show encodePrinters (listPrinters lpstatA lpstatPlain) = _
    unfold encodePrinters
    rw [if_neg (by simpa [List.isEmpty_iff] using hne)]

theorem printers_endpoint_response_witness :
    (handlePrinters (some "ViewPlus accepting requests since Mon") none).status
      = 200 ∧
    (handlePrinters none none).body = "null\n" ∧
    (handlePrinters (some "ViewPlus accepting requests since Mon") none).body
      = "[" ++ String.intercalate ","
          ((listPrinters (some "ViewPlus accepting requests since Mon") none).map
            goJsonString) ++ "]" ++ "\n" :=
  ⟨(printers_endpoint_response (some "ViewPlus accepting requests since Mon")
      none).1,
   (printers_endpoint_response none none).2.1 (by decide),
   (printers_endpoint_response (some "ViewPlus accepting requests since Mon")
      none).2.2 (by decide)⟩

theorem erase_append_singleton {fs : List String} {n : String}
    (h : n ∉ fs) : (fs ++ [n]).erase n = fs := by
  rw [List.erase_append_right _ h]
  simp

/-- C8: on the Unix backend, whenever the temporary file is created it is
removed on every exit path — write failure, close failure, `lp` failure,
or success — so the file-system state after the call equals the state
before it; the trace starts by creating the oracle-chosen name (which
`os.CreateTemp` guarantees fresh, here the `hfresh` hypothesis) and ends by
removing that same name. -/
theorem tempfile_removed_every_path (printerName : String) (data : List Nat)
    (os : UnixOS) (fs : List String)
    (hcreate : os.createErr = none) (hfresh : os.tmpName ∉ fs) :
    applyFileOps fs (sendToPrinter printerName data os).2 = fs ∧
    (sendToPrinter printerName data os).2.head? =
      some (FileOp.create os.tmpName) ∧
    (sendToPrinter printerName data os).2.getLast? =
      some (FileOp.remove os.tmpName) := by
  obtain ⟨tmpName, createErr, writeErr, closeErr, lpErr, lpOutput⟩ := os
  simp only at hcreate hfresh
  subst hcreate
  unfold sendToPrinter
  cases writeErr with
  | some e =>
    exact ⟨by simp [applyFileOps, erase_append_singleton hfresh], rfl, rfl⟩
  | none =>
    cases closeErr with
    | some e =>
      exact ⟨by simp [applyFileOps, erase_append_singleton hfresh], rfl, rfl⟩
    | none =>
      cases lpErr with
      | some e =>
        exact ⟨by simp [applyFileOps, erase_append_singleton hfresh], rfl, rfl⟩
      | none =>
        exact ⟨by simp [applyFileOps, erase_append_singleton hfresh], rfl, rfl⟩

def osLpFail : UnixOS :=
  { tmpName := "/tmp/braillevibe-123.brf", createErr := none,
    writeErr := none, closeErr := none, lpErr := some "exit status 1",
    lpOutput := "lp: The printer or class does not exist.\n" }

theorem tempfile_removed_every_path_witness :
    applyFileOps ["/etc/passwd"]
        (sendToPrinter "ViewPlus" [97, 98] osLpFail).2 = ["/etc/passwd"] ∧
    (sendToPrinter "ViewPlus" [97, 98] osLpFail).2.head? =
      some (FileOp.create "/tmp/braillevibe-123.brf") ∧
    (sendToPrinter "ViewPlus" [97, 98] osLpFail).2.getLast? =
      some (FileOp.remove "/tmp/braillevibe-123.brf") :=
  tempfile_removed_every_path "ViewPlus" [97, 98] osLpFail ["/etc/passwd"]
    rfl (by decide)

/-! Section: claim theorems for the print handlers -/

theorem append_left_ne_empty {a : String} (ha : a.length ≠ 0)
    (b : String) : a ++ b ≠ "" := by
  intro h
  have hlen := congrArg String.length h
  rw [String.length_append] at hlen
  have h0 : ("" : String).length = 0 := rfl
  omega

/-- Every error `sendToPrinter` returns carries a non-empty message: each
`fmt.Errorf` call starts with a non-empty literal. -/
theorem sendToPrinter_error_ne (printerName : String) (data : List Nat)
    (os : UnixOS) (m : String)
    (h : (sendToPrinter printerName data os).1 = Except.error m) :
    m ≠ "" := by
  unfold sendToPrinter at h
  split at h
  case _ e heq =>
    simp only at h
    injection h with h
    rw [← h]
    exact append_left_ne_empty (by decide) e
  case _ heq =>
    split at h
    case _ e heq2 =>
      simp only at h
      injection h with h
      rw [← h]
      exact append_left_ne_empty (by decide) e
    case _ heq2 =>
      split at h
      case _ e heq3 =>
        simp only at h
        injection h with h
        rw [← h]
        exact append_left_ne_empty (by decide) e
      case _ heq3 =>
        split at h
        case _ e heq4 =>
          simp only at h
          injection h with h
          rw [← h]
          rw [show "lp command failed: " ++ e ++ "\noutput: " ++ os.lpOutput
              = "lp command failed: " ++
                (e ++ "\noutput: " ++ os.lpOutput) by
            simp [String.append_assoc]]
          exact append_left_ne_empty (by decide) _
        case _ heq4 =>
          simp only at h
          cases h

/-- C6 (amended): for every JobEvent a `/testprint` or `/print` call
records, the `error` field is non-empty exactly when the OS print call
failed; on failure the backend's single message (with captured `lp` output)
is stored verbatim in the JobEvent, and the 500 response body is that same
message followed by the one newline `http.Error`'s `Fprintln` appends. -/
theorem error_propagation :
    (∀ printer now os, printer ≠ "" →
      ∀ e ∈ (handleTestPrint "POST" (some printer) now os).events,
        (e.errMsg = "" ↔
          (sendToPrinter printer testBRFBytes os).1 = Except.ok ()) ∧
        (∀ m, (sendToPrinter printer testBRFBytes os).1 = Except.error m →
          m ≠ "" ∧ e.errMsg = m ∧
          (handleTestPrint "POST" (some printer) now os).resp.status = 500 ∧
          (handleTestPrint "POST" (some printer) now os).resp.body =
            m ++ "\n")) ∧
    (∀ printer data now os, printer ≠ "" →
      ∀ e ∈ (handlePrint "POST" (some (printer, some data)) now os).events,
        (e.errMsg = "" ↔
          (sendToPrinter printer data os).1 = Except.ok ()) ∧
        (∀ m, (sendToPrinter printer data os).1 = Except.error m →
          m ≠ "" ∧ e.errMsg = m ∧
          (handlePrint "POST" (some (printer, some data)) now os).resp.status
            = 500 ∧
          (handlePrint "POST" (some (printer, some data)) now os).resp.body =
            m ++ "\n")) := by
  constructor
  · intro printer now os hpr e he
    cases hr : (sendToPrinter printer testBRFBytes os).1 with
    | ok u =>
      simp [handleTestPrint, hpr, hr] at he
      subst he
      refine ⟨by simp, ?_⟩
      intro m hm
      cases hm
    | error msg =>
      simp [handleTestPrint, hpr, hr] at he
      subst he
      constructor
      · simp only []
        constructor
        · intro hmsg
          exact absurd hmsg (sendToPrinter_error_ne _ _ _ _ hr)
        · intro hok
          cases hok
      · intro m hm
        injection hm with hm
        subst hm
        refine ⟨sendToPrinter_error_ne _ _ _ _ hr, rfl, ?_, ?_⟩
        · simp [handleTestPrint, hpr, hr, httpError]
        · simp [handleTestPrint, hpr, hr, httpError]
  · intro printer data now os hpr e he
    cases hr : (sendToPrinter printer data os).1 with
    | ok u =>
      simp [handlePrint, hpr, hr] at he
      subst he
      refine ⟨by simp, ?_⟩
      intro m hm
      cases hm
    | error msg =>
      simp [handlePrint, hpr, hr] at he
      subst he
      constructor
      · simp only []
        constructor
        · intro hmsg
          exact absurd hmsg (sendToPrinter_error_ne _ _ _ _ hr)
        · intro hok
          cases hok
      · intro m hm
        injection hm with hm
        subst hm
        refine ⟨sendToPrinter_error_ne _ _ _ _ hr, rfl, ?_, ?_⟩
        · simp [handlePrint, hpr, hr, httpError]
        · simp [handlePrint, hpr, hr, httpError]

def c6msg : String :=
  "lp command failed: exit status 1\noutput: " ++
  "lp: The printer or class does not exist.\n"

/-- C6, counterexample to the claim as stated: on an `lp` failure the
JobEvent's `error` field is the backend message, but the HTTP response body
is that message plus the newline `http.Error` appends — the two strings are
not equal. -/
theorem error_propagation_counterexample :
    (handleTestPrint "POST" (some "ViewPlus") 0 osLpFail).events.map
      JobData.errMsg = [c6msg] ∧
    (handleTestPrint "POST" (some "ViewPlus") 0 osLpFail).resp.body =
      c6msg ++ "\n" ∧
    c6msg ++ "\n" ≠ c6msg := by
  refine ⟨by decide, by decide, by decide⟩

def osOK : UnixOS :=
  { tmpName := "/tmp/braillevibe-124.brf", createErr := none,
    writeErr := none, closeErr := none, lpErr := none, lpOutput := "" }

set_option maxRecDepth 4096 in
theorem error_propagation_witness :
    ((handleTestPrint "POST" (some "ViewPlus") 0 osLpFail).events.all
      (fun e => decide (e.errMsg = c6msg)) = true) ∧
    (handleTestPrint "POST" (some "ViewPlus") 0 osLpFail).resp.status = 500 ∧
    (handleTestPrint "POST" (some "ViewPlus") 0 osLpFail).resp.body =
      c6msg ++ "\n" ∧
    ((handleTestPrint "POST" (some "ViewPlus") 0 osOK).events.all
      (fun e => decide (e.errMsg = "")) = true) := by
  have h1 := error_propagation.1 "ViewPlus" 0 osLpFail (by decide)
    ((handleTestPrint "POST" (some "ViewPlus") 0 osLpFail).events.headD
      ⟨0, "", 0, "", "", ""⟩) (by decide)
  refine ⟨by decide, ?_, ?_, by decide⟩
  · exact (h1.2 c6msg rfl).2.2.1
  · exact (h1.2 c6msg rfl).2.2.2

/-- Validation performed by `handleTestPrint` before dispatch: POST method,
decodable body, non-empty printer name. -/
def validTestReq (method : String) (parsed : Option String) : Bool :=
  method == "POST" &&
    (match parsed with
     | some p => p != ""
     | none => false)

/-- Validation of `/print` requests: POST method, parsable JSON, non-empty
printer name, decodable base64 payload. -/
def validPrintReq (method : String)
    (parsed : Option (String × Option (List Nat))) : Bool :=
  method == "POST" &&
    (match parsed with
     | some (pr, some _) => pr != ""
     | _ => false)

/-- C5 (amended): every `/testprint` or `/print` call that passes request
validation appends exactly one JobEvent — whether the OS dispatch succeeds
or fails — and a call that fails validation appends none; the broadcast
phase of the recording delivers that event to every registered (live)
`/log-stream` subscriber, into its mailbox when below capacity and onto its
drop list otherwise. -/
theorem print_records_exactly_one_event :
    (∀ method parsed now os,
      (handleTestPrint method parsed now os).events.length =
        (if validTestReq method parsed then 1 else 0)) ∧
    (∀ method parsed now os,
      (handlePrint method parsed now os).events.length =
        (if validPrintReq method parsed then 1 else 0)) ∧
    (∀ σ p e σ', σ.prods.get? p = some (ProdState.appended e) →
      bcastStep σ p = some σ' →
      ∀ i ss, σ.subs.get? i = some ss → ss.phase = SubPhase.live →
        σ'.subs.get? i = some (deliverTo e ss) ∧
        ((ss.mailbox.length < mboxCap ∧
            (deliverTo e ss).mailbox = ss.mailbox ++ [e]) ∨
          (mboxCap ≤ ss.mailbox.length ∧
            (deliverTo e ss).mailbox = ss.mailbox ∧
            (deliverTo e ss).dropped = ss.dropped ++ [e]))) := by
  refine ⟨?_, ?_, ?_⟩
  · intro method parsed now os
    by_cases hm : method = "POST"
    · subst hm
      rcases parsed with _ | p
      · simp [handleTestPrint, validTestReq]
      · by_cases hp : p = ""
        · subst hp
          simp [handleTestPrint, validTestReq]
        · cases hr : (sendToPrinter p testBRFBytes os).1 <;>
            simp [handleTestPrint, validTestReq, hp, hr]
    · simp [handleTestPrint, validTestReq, hm]
  · intro method parsed now os
    by_cases hm : method = "POST"
    · subst hm
      rcases parsed with _ | ⟨pr, pay⟩
      · simp [handlePrint, validPrintReq]
      · rcases pay with _ | data
        · by_cases hp : pr = "" <;>
            simp [handlePrint, validPrintReq, hp]
        · by_cases hp : pr = ""
          · subst hp
            simp [handlePrint, validPrintReq]
          · cases hr : (sendToPrinter pr data os).1 <;>
              simp [handlePrint, validPrintReq, hp, hr]
    · simp [handlePrint, validPrintReq, hm]
  · intro σ p e σ' hp hstep i ss hss hl
    unfold bcastStep at hstep
    rw [hp] at hstep
    injection hstep with hstep
    subst hstep
    constructor
    · show (σ.subs.map (deliverTo e)).get? i = some (deliverTo e ss)
      rw [List.get?_map, hss]
      rfl
    · unfold deliverTo
      rw [if_pos hl]
      by_cases hmb : ss.mailbox.length < mboxCap
      · rw [if_pos hmb]
        exact Or.inl ⟨hmb, rfl⟩
      · rw [if_neg hmb]
        exact Or.inr ⟨Nat.le_of_not_lt hmb, rfl, rfl⟩

/-- C5, counterexample to the claim as stated: a `/testprint` request whose
body fails to decode (or whose printer name is empty) appends zero
JobEvents, contradicting "no call appends zero events". -/
theorem print_zero_events_counterexample :
    (handleTestPrint "POST" none 0 osOK).events = [] ∧
    (handleTestPrint "POST" (some "") 0 osOK).events = [] := by
  decide

def sC5 : BusState :=
  (run (init [dA] 1) [Act.connect 0, Act.register 0, Act.record 0]).getD
    emptyBus

def sC5' : BusState := (bcastStep sC5 0).getD emptyBus

def ssC5 : SubState := (sC5.subs.get? 0).getD initSub

theorem print_records_exactly_one_event_witness :
    (handleTestPrint "POST" (some "ViewPlus") 0 osLpFail).events.length =
      (if validTestReq "POST" (some "ViewPlus") then 1 else 0) ∧
    (handlePrint "POST" (some ("ViewPlus", some [97])) 0 osOK).events.length =
      (if validPrintReq "POST" (some ("ViewPlus", some [97])) then 1
       else 0) ∧
    (sC5'.subs.get? 0 = some (deliverTo ⟨1, dA⟩ ssC5) ∧
      ((ssC5.mailbox.length < mboxCap ∧
          (deliverTo ⟨1, dA⟩ ssC5).mailbox = ssC5.mailbox ++ [⟨1, dA⟩]) ∨
        (mboxCap ≤ ssC5.mailbox.length ∧
          (deliverTo ⟨1, dA⟩ ssC5).mailbox = ssC5.mailbox ∧
          (deliverTo ⟨1, dA⟩ ssC5).dropped = ssC5.dropped ++ [⟨1, dA⟩]))) := by
  refine ⟨print_records_exactly_one_event.1 "POST" (some "ViewPlus") 0
      osLpFail,
    print_records_exactly_one_event.2.1 "POST" (some ("ViewPlus", some [97]))
      0 osOK,
    print_records_exactly_one_event.2.2 sC5 0 ⟨1, dA⟩ sC5' (by decide) rfl
      0 ssC5 rfl (by decide)⟩

/-- C7: a `/testprint` or `/print` request that is malformed — unparsable
body, empty printer name, or (for `/print`) undecodable base64 — is
rejected with a non-2xx status before any OS interaction: the backend send
operation is never invoked and no JobEvent is recorded.  (A wrong-method
request is likewise rejected with 405.) -/
theorem malformed_request_rejected_before_os :
    (∀ method parsed now os,
      (∀ p, parsed = some p → p = "") →
      (handleTestPrint method parsed now os).events = [] ∧
      (handleTestPrint method parsed now os).sendCalled = false ∧
      ((handleTestPrint method parsed now os).resp.status < 200 ∨
        299 < (handleTestPrint method parsed now os).resp.status)) ∧
    (∀ method parsed now os,
      (∀ pr pay, parsed = some (pr, pay) → pr = "" ∨ pay = none) →
      (handlePrint method parsed now os).events = [] ∧
      (handlePrint method parsed now os).sendCalled = false ∧
      ((handlePrint method parsed now os).resp.status < 200 ∨
        299 < (handlePrint method parsed now os).resp.status)) := by
  constructor
  · intro method parsed now os hbad
    by_cases hm : method = "POST"
    · subst hm
      rcases parsed with _ | p
      · refine ⟨rfl, rfl, Or.inr ?_⟩
        show (299 : Nat) < 400
        decide
      · have hp : p = "" := hbad p rfl
        subst hp
        refine ⟨rfl, rfl, Or.inr ?_⟩
        show (299 : Nat) < 400
        decide
    · refine ⟨?_, ?_, ?_⟩ <;>
        simp [handleTestPrint, hm, httpError]
  · intro method parsed now os hbad
    by_cases hm : method = "POST"
    · subst hm
      rcases parsed with _ | ⟨pr, pay⟩
      · refine ⟨rfl, rfl, Or.inr ?_⟩
        show (299 : Nat) < 400
        decide
      · rcases hbad pr pay rfl with hpr | hpay
        · subst hpr
          refine ⟨rfl, rfl, Or.inr ?_⟩
          show (299 : Nat) < 400
          decide
        · subst hpay
          by_cases hpr : pr = ""
          · subst hpr
            refine ⟨rfl, rfl, Or.inr ?_⟩
            show (299 : Nat) < 400
            decide
          · refine ⟨?_, ?_, ?_⟩ <;>
              simp [handlePrint, hpr, httpError]
    · refine ⟨?_, ?_, ?_⟩ <;>
        simp [handlePrint, hm, httpError]

theorem malformed_request_rejected_before_os_witness :
    ((handleTestPrint "POST" none 0 osOK).events = [] ∧
      (handleTestPrint "POST" none 0 osOK).sendCalled = false ∧
      ((handleTestPrint "POST" none 0 osOK).resp.status < 200 ∨
        299 < (handleTestPrint "POST" none 0 osOK).resp.status)) ∧
    ((handlePrint "POST" (some ("", some [97])) 0 osOK).events = [] ∧
      (handlePrint "POST" (some ("", some [97])) 0 osOK).sendCalled = false ∧
      ((handlePrint "POST" (some ("", some [97])) 0 osOK).resp.status < 200 ∨
        299 < (handlePrint "POST" (some ("", some [97])) 0 osOK).resp.status)) :=
  ⟨malformed_request_rejected_before_os.1 "POST" none 0 osOK
      (fun p hp => by cases hp),
   malformed_request_rejected_before_os.2 "POST" (some ("", some [97])) 0 osOK
      (fun pr pay hp => by
        cases hp
        exact Or.inl rfl)⟩

end BrailleBridge
